import Mathlib

/-!
Shallow embedding of the phosphate-dashboard extraction pipeline
(`src/streamlit_app.py`) and proofs about its claims.

Modelling conventions:
* pandas scalar cells become `Cell` (a string, an exact rational number, or
  NaN/absent, written `Cell.blank`); floating-point values are idealised as `ℚ`.
* A parsed sheet or CSV becomes `RawTable`: ordered column labels plus rows of
  cells.  pandas deduplicates column labels at parse time, so tables obtained
  from `read_excel`/`read_csv` have `Nodup` column labels; theorems that need
  this state it as a hypothesis.
* Python exceptions inside the per-URL `try` of `fetch_worldbank_price` are
  `Option.none` (the loop then advances); the final `raise RuntimeError` is
  `Except.error`.
-/

namespace Phos

/-- A scalar cell of a parsed table: a string, a (rational-idealised) number,
or an empty/NaN cell. -/
inductive Cell where
  | str (s : String)
  | num (q : ℚ)
  | blank
deriving DecidableEq, Repr

/-- An in-memory tabular structure: ordered column labels plus rows of cells
(`RawTable` in the spec). -/
structure RawTable where
  cols : List String
  rows : List (List Cell)
deriving DecidableEq, Repr

/-- Cell of a row at position `i`; a missing position reads as NaN
(pandas aligns short rows by padding with NaN). -/
def getCell (r : List Cell) (i : ℕ) : Cell := r.getD i Cell.blank

/-- ASCII digit test (the `\d` of the source's regexes on the data in scope). -/
def isDigitCh (c : Char) : Bool := 48 ≤ c.toNat && c.toNat ≤ 57

/-- Numeric value of an ASCII digit character. -/
def digitVal (c : Char) : ℕ := c.toNat - 48

/-- Parse a non-empty all-digit character list as a natural number. -/
def parseNatDigits (cs : List Char) : Option ℕ :=
  if (!cs.isEmpty) && cs.all isDigitCh then
    some (cs.foldl (fun n c => 10 * n + digitVal c) 0)
  else none

/-- Model of `pd.to_numeric(x, errors="coerce")`: numbers pass through, numeric strings
(modelled as optionally negated digit strings, which covers the data in scope)
parse, everything else becomes NaN (absent). -/
def toNumeric : Cell → Option ℚ
  | Cell.num q => some q
  | Cell.blank => none
  | Cell.str s =>
    match s.data with
    | '-' :: cs => (parseNatDigits cs).map (fun n => -(n : ℚ))
    | cs => (parseNatDigits cs).map (fun n => (n : ℚ))

/-- Model of `str(x)` as applied by `.astype(str)`: NaN prints as `"nan"`. -/
def cellStr : Cell → String
  | Cell.str s => s
  | Cell.num q => toString q
  | Cell.blank => "nan"

/-- Contiguous-sublist test on character lists. -/
def hasSubList : List Char → List Char → Bool
  | needle, [] => needle.isEmpty
  | needle, c :: rest => needle.isPrefixOf (c :: rest) || hasSubList needle rest

/-- Case-insensitive substring containment
(`.str.contains(needle, case=False)`). -/
def ciHas (s needle : String) : Bool :=
  hasSubList (needle.data.map Char.toLower) (s.data.map Char.toLower)

/-- Test that `s.upper()` contains `needle` (with `needle` already upper-case):
`.str.upper().str.contains(needle)`. -/
def upHas (s needle : String) : Bool :=
  hasSubList needle.data (s.data.map Char.toUpper)

/-- A calendar month: `(year, month)`; the implicit day is always 1. -/
abbrev Date := ℕ × ℕ

/-- A `CanonicalPricePoint`: a dated price. -/
structure PricePoint where
  date : Date
  price : ℚ
deriving DecidableEq, Repr

/-- The year-month column-label pattern of line 59,
`re.match(r"^\d{4}M\d{2}$", c)`. -/
def isYearMonth (s : String) : Bool :=
  match s.data with
  | [c1, c2, c3, c4, cm, c5, c6] =>
    isDigitCh c1 && isDigitCh c2 && isDigitCh c3 && isDigitCh c4 &&
      (cm == 'M') && isDigitCh c5 && isDigitCh c6
  | _ => false

/-- Line 59: the value-bearing columns of the price sheet. -/
def ymCols (cols : List String) : List String := cols.filter isYearMonth

/-- Validity of `pd.to_datetime(f"{y}-{m}-01")`: the month must be a real
month and the date must lie inside the `pd.Timestamp` range
(1677-09-21 .. 2262-04-11, so month starts 1677-10 .. 2262-04). -/
def validYM (y m : ℕ) : Bool :=
  (decide (1 ≤ m) && decide (m ≤ 12)) &&
    (decide (1677 < y) || (decide (y = 1677) && decide (10 ≤ m))) &&
    (decide (y < 2262) || (decide (y = 2262) && decide (m ≤ 4)))

/-- Line 67, `pd.to_datetime(f"{c[:4]}-{c[-2:]}-01")`: year from the first
four characters, month from the last two; raises (`none`) on non-digit parts
or a calendar-invalid / out-of-range date. -/
def ymDate (s : String) : Option Date :=
  match parseNatDigits (s.data.take 4),
        parseNatDigits (s.data.drop (s.data.length - 2)) with
  | some y, some m => if validYM y m then some (y, m) else none
  | _, _ => none

/-- All-or-nothing list traversal: a Python list comprehension whose body may
raise aborts as a whole. -/
def mapOpt {α β : Type _} : List α → (α → Option β) → Option (List β)
  | [], _ => some []
  | a :: as, f =>
    match f a, mapOpt as f with
    | some b, some bs => some (b :: bs)
    | _, _ => none

/-- Model of `row[c]`: look a cell up by column label (first matching label). -/
def cellAt (cols : List String) (r : List Cell) (c : String) : Cell :=
  match cols.findIdx? (fun x => x == c) with
  | some i => getCell r i
  | none => Cell.blank

/-- Non-strict chronological order on month dates. -/
def dateLe (a b : Date) : Prop := a.1 < b.1 ∨ (a.1 = b.1 ∧ a.2 ≤ b.2)

/-- Strict chronological order on month dates. -/
def dateLt (a b : Date) : Prop := a.1 < b.1 ∨ (a.1 = b.1 ∧ a.2 < b.2)

/-- Price points ordered by date (`sort_values("date")`). -/
def pointLe (p q : PricePoint) : Prop := dateLe p.date q.date

instance (a b : Date) : Decidable (dateLe a b) := by
  unfold dateLe; exact inferInstance

instance (a b : Date) : Decidable (dateLt a b) := by
  unfold dateLt; exact inferInstance

instance : DecidableRel pointLe := fun p q => by
  unfold pointLe; exact inferInstance

instance : IsTotal PricePoint pointLe :=
  ⟨by intro a b; unfold pointLe dateLe; omega⟩

instance : IsTrans PricePoint pointLe :=
  ⟨by intro a b c hab hbc; unfold pointLe dateLe at *; omega⟩

/-- Lines 66-70: build the `(date, value)` frame for the matched row from the
year-month columns, drop rows whose value is NaN, and sort ascending by date.
The date list is built first and any invalid date aborts the whole attempt
(`none`); `to_numeric(..., errors="coerce")` never raises. -/
def buildSeries (cols : List String) (r : List Cell) : Option (List PricePoint) :=
  match mapOpt (ymCols cols) ymDate with
  | none => none
  | some dates =>
    some (List.insertionSort pointLe
      ((dates.zip ((ymCols cols).map (fun c => toNumeric (cellAt cols r c)))).filterMap
        (fun p => (p.2).map (fun q => PricePoint.mk p.1 q))))

/-- A parsed multi-sheet workbook: named sheets in order. -/
abbrev Workbook := List (String × RawTable)

/-- Line 39: a sheet qualifies when some cell is a string containing
"phosphate" case-insensitively. -/
def sheetHasPhosphate (t : RawTable) : Bool :=
  t.rows.any (fun r => r.any (fun c =>
    match c with
    | Cell.str s => ciHas s "phosphate"
    | _ => false))

/-- Lines 31-41: prefer the sheet literally named "Monthly Prices"; if absent,
scan the sheets in order for one mentioning "phosphate". -/
def chooseSheet (wb : Workbook) : Option RawTable :=
  match wb.find? (fun p => p.1 == "Monthly Prices") with
  | some p => some p.2
  | none => (wb.find? (fun p => sheetHasPhosphate p.2)).map (fun p => p.2)

/-- Line 50/53: does the first-column cell of a row contain `needle`
case-insensitively (after `astype(str)`). -/
def rowMatches (needle : String) (r : List Cell) : Bool :=
  ciHas (cellStr (getCell r 0)) needle

/-- Lines 50-57: first row matching "phosphate rock", else first row matching
the looser "phosphate". -/
def matchRow (t : RawTable) : Option (List Cell) :=
  match t.rows.find? (rowMatches "phosphate rock") with
  | some r => some r
  | none => t.rows.find? (rowMatches "phosphate")

/-- One iteration of the URL loop of `fetch_worldbank_price` (lines 26-73),
fed with what the URL's fetch+parse produced (`none` = transport/parse
failure).  Result `none` means "advance to the next URL" (every exception is
caught by the per-URL `except`), `some s` means `return s`. -/
def tryUrl : Option Workbook → Option (List PricePoint)
  | none => none
  | some wb =>
    match chooseSheet wb with
    | none => none
    | some t =>
      if t.cols.isEmpty then none
      else
        match matchRow t with
        | none => none
        | some r =>
          if (ymCols t.cols).isEmpty then none
          else buildSeries t.cols r

/-- The loop of `fetch_worldbank_price` (lines 23-74) over the candidate URLs, each URL
represented by what its fetch+parse yields: first `some` series is returned
as-is; exhaustion raises `RuntimeError` (`Except.error`). -/
def fetch_worldbank_price : List (Option Workbook) → Except Unit (List PricePoint)
  | [] => Except.error ()
  | f :: rest =>
    match tryUrl f with
    | some s => Except.ok s
    | none => fetch_worldbank_price rest

/-- Model of `latest["date"] - pd.DateOffset(years=1)` on a month-start date: the same
month one calendar year (= exactly 12 calendar months) earlier. -/
def minus12 (d : Date) : Date := (d.1 - 1, d.2)

/-- Lines 145 and 152: the MoM percentage, present when the series has at
least two points, computed against the chronologically second-to-last point. -/
def momPct (s : List PricePoint) : Option ℚ :=
  match s.reverse with
  | a :: b :: _ => some ((a.price - b.price) / b.price * 100)
  | _ => none

/-- Lines 146-147: the YoY percentage; `prev_y` collects the points dated
exactly one year before the latest point, the metric is computed from the
first of them and is `None` when there is none. -/
def yoy (s : List PricePoint) : Option ℚ :=
  match s.getLast? with
  | none => none
  | some latest =>
    match (s.filter (fun p => decide (p.date = minus12 latest.date))).head? with
    | none => none
    | some old => some ((latest.price - old.price) / old.price * 100)

/-- The bare four-digit-year column pattern of line 95,
`re.match(r"^\d{4}$", str(c))`. -/
def isYear (s : String) : Bool :=
  match s.data with
  | [c1, c2, c3, c4] => isDigitCh c1 && isDigitCh c2 && isDigitCh c3 && isDigitCh c4
  | _ => false

/-- Wrap the result of a coercion back into a cell (NaN for failures). -/
def numOrBlank : Option ℚ → Cell
  | some q => Cell.num q
  | none => Cell.blank

/-- NaN test. -/
def isBlank : Cell → Bool
  | Cell.blank => true
  | _ => false

/-- Model of `df.rename(columns={o: n})`: every column labelled `o` is relabelled `n`;
a missing `o` is silently ignored.  Rows are untouched. -/
def renameCol (t : RawTable) (o n : String) : RawTable :=
  ⟨t.cols.map (fun c => if c == o then n else c), t.rows⟩

/-- Model of `df[nm] = pd.to_numeric(df[nm], errors="coerce")`: coerce the column
labelled `nm` (first occurrence) cell-wise to numeric, NaN on failure;
identity when the column is absent (the source guards membership). -/
def coerceCol (t : RawTable) (nm : String) : RawTable :=
  match t.cols.findIdx? (fun c => c == nm) with
  | none => t
  | some i =>
    ⟨t.cols, t.rows.map (fun r => r.set i (numOrBlank (toNumeric (getCell r i))))⟩

/-- Model of `df.dropna(subset=nms)`: keep the rows that are non-NaN in every named
column. -/
def dropnaOn (t : RawTable) (nms : List String) : RawTable :=
  ⟨t.cols, t.rows.filter (fun r => nms.all (fun nm =>
    match t.cols.findIdx? (fun c => c == nm) with
    | some i => !(isBlank (getCell r i))
    | none => true))⟩

/-- Model of `df.melt(id_vars=idv, value_vars=vv, var_name=yn, value_name=vn)` (lines
97-102): one stacked block per value column, each block repeating the id
columns and carrying the column label as the `yn` value. -/
def melt (t : RawTable) (idv vv : List String) (yn vn : String) : RawTable :=
  ⟨idv ++ [yn, vn],
   (vv.map (fun v => t.rows.map (fun r =>
      idv.map (cellAt t.cols r) ++ [Cell.str v, cellAt t.cols r v]))).flatten⟩

/-- ASCII whitespace as stripped by `str.strip()`. -/
def isSpaceCh (c : Char) : Bool :=
  c == ' ' || c == '\t' || c == '\n' || c == '\r' || c == '\x0b' || c == '\x0c'

/-- Model of `c.strip()`: drop leading and trailing whitespace. -/
def stripStr (s : String) : String :=
  String.mk (((s.data.dropWhile isSpaceCh).reverse.dropWhile isSpaceCh).reverse)

/-- Line 84: `df.columns = [c.strip() for c in df.columns]`. -/
def stripTable (t : RawTable) : RawTable := ⟨t.cols.map stripStr, t.rows⟩

/-- Line 91: the ranked candidate production-count column names. -/
def candidateCols : List String :=
  ["Production", "Mine Production", "Mine production", "World Production",
   "Production (kt)"]

/-- Lines 86-87: keep the rows whose commodity cell (column index `i`),
upper-cased, contains "PHOSPHATE ROCK". -/
def commodityFilter (t : RawTable) (i : ℕ) : RawTable :=
  ⟨t.cols, t.rows.filter (fun r => upHas (cellStr (getCell r i)) "PHOSPHATE ROCK")⟩

/-- Lines 110-123, the Long branch: rename `Country`, coerce `Year` (when
present) and the chosen value column, rename the value column to
`Production`, and drop the rows that are NaN in `Production` only. -/
def usgsLong (t : RawTable) (v : String) : RawTable :=
  dropnaOn
    (renameCol
      (coerceCol (coerceCol (renameCol t "Country" "CountryName") "Year") v)
      v "Production")
    ["Production"]

/-- Lines 94-106, the Wide branch: melt the four-digit-year columns into
`(Year, Production)` rows, coerce both, rename `Country`, and drop the rows
that are NaN in `Production` or `Year`. -/
def usgsWide (t : RawTable) (ycols : List String) : RawTable :=
  dropnaOn
    (renameCol
      (coerceCol
        (coerceCol
          (melt t (t.cols.filter (fun c => !(isYear c))) ycols "Year" "Production")
          "Year")
        "Production")
      "Country" "CountryName")
    ["Production", "Year"]

/-- Model of `fetch_usgs_world` (lines 77-123) after the single-URL fetch and CSV
parse, taking the parsed table: strip column labels, filter to PHOSPHATE
ROCK (a missing `Commodity` column raises `KeyError`), then branch — a
candidate production column takes the Long path, otherwise four-digit-year
columns take the Wide (melt) path, otherwise raise `RuntimeError`. -/
def fetch_usgs_world (t0 : RawTable) : Except String RawTable :=
  match (stripTable t0).cols.findIdx? (fun c => c == "Commodity") with
  | none => Except.error "KeyError: Commodity"
  | some i =>
    match candidateCols.find?
        (fun c => (commodityFilter (stripTable t0) i).cols.contains c) with
    | some v => Except.ok (usgsLong (commodityFilter (stripTable t0) i) v)
    | none =>
      if ((commodityFilter (stripTable t0) i).cols.filter isYear).isEmpty then
        Except.error "RuntimeError: no production column"
      else
        Except.ok (usgsWide (commodityFilter (stripTable t0) i)
          ((commodityFilter (stripTable t0) i).cols.filter isYear))

/-! ### Concrete tables and series used as test inputs -/

/-- Sheet whose single phosphate-rock row has one year-month column holding a
non-numeric value: every pair is dropped. -/
def tblNoNum : RawTable :=
  ⟨["Commodity", "2023M01"],
   [[Cell.str "Phosphate rock (Morocco)", Cell.str "n/a"]]⟩

/-- Well-formed single-column sheet: extraction alone yields one point. -/
def tblFallback : RawTable :=
  ⟨["Commodity", "2023M01"],
   [[Cell.str "Phosphate rock (Morocco)", Cell.num 100]]⟩

/-- The synthetic wide-form sheet of the round-trip property. -/
def tblRound : RawTable :=
  ⟨["Commodity", "2023M01", "2023M02", "2023M03"],
   [[Cell.str "Phosphate rock (Morocco)", Cell.num 100, Cell.num 110, Cell.num 121]]⟩

/-- Sheet containing a negative price value. -/
def tblNeg : RawTable :=
  ⟨["Commodity", "2023M01"],
   [[Cell.str "Phosphate rock (Morocco)", Cell.num (-5)]]⟩

/-- Sheet with a calendar-invalid year-month column label (month 13). -/
def tblBadMonth : RawTable :=
  ⟨["Commodity", "2023M13", "2023M01"],
   [[Cell.str "Phosphate rock (Morocco)", Cell.num 7, Cell.num 100]]⟩

/-- Sheet whose year-month columns appear out of chronological order. -/
def tblUnsorted : RawTable :=
  ⟨["Commodity", "2023M02", "2023M01"],
   [[Cell.str "Phosphate rock (Morocco)", Cell.num 110, Cell.num 100]]⟩

def wbNoNum : Workbook := [("Monthly Prices", tblNoNum)]
def wbFallback : Workbook := [("Monthly Prices", tblFallback)]
def wbRound : Workbook := [("Monthly Prices", tblRound)]
def wbNeg : Workbook := [("Monthly Prices", tblNeg)]
def wbBadMonth : Workbook := [("Monthly Prices", tblBadMonth)]
def wbUnsorted : Workbook := [("Monthly Prices", tblUnsorted)]

/-- Series whose value exactly 12 months before the latest date is zero. -/
def seriesYoYZero : List PricePoint :=
  [PricePoint.mk (2022, 3) 0, PricePoint.mk (2023, 3) 121]

/-- Series whose second-to-last value is zero. -/
def seriesMomZero : List PricePoint :=
  [PricePoint.mk (2023, 2) 0, PricePoint.mk (2023, 3) 121]

/-- Series with a genuine year-over-year pair. -/
def seriesYoY : List PricePoint :=
  [PricePoint.mk (2022, 3) 100, PricePoint.mk (2022, 4) 95, PricePoint.mk (2023, 3) 121]

/-- Production table that carries both a `Production` column and a bare
four-digit-year column. -/
def tblCandidateYear : RawTable :=
  ⟨["Commodity", "Country", "Production", "2020"],
   [[Cell.str "PHOSPHATE ROCK", Cell.str "Morocco", Cell.num 10, Cell.num 20]]⟩

/-- What the code returns on `tblCandidateYear`: the Long branch output, with
the year column untouched. -/
def tblCandidateYearOut : RawTable :=
  ⟨["Commodity", "CountryName", "Production", "2020"],
   [[Cell.str "PHOSPHATE ROCK", Cell.str "Morocco", Cell.num 10, Cell.num 20]]⟩

/-- Long-layout production table with one row whose year fails numeric
coercion (but whose production coerces). -/
def tblLongBadYear : RawTable :=
  ⟨["Commodity", "Year", "Production"],
   [[Cell.str "PHOSPHATE ROCK", Cell.str "n/a", Cell.num 5],
    [Cell.str "PHOSPHATE ROCK", Cell.num 2021, Cell.str "x"]]⟩

/-- Wide-layout production table (no candidate production column). -/
def tblWideProd : RawTable :=
  ⟨["Commodity", "Country", "2020", "2021"],
   [[Cell.str "PHOSPHATE ROCK", Cell.str "Morocco", Cell.num 10, Cell.num 20],
    [Cell.str "PHOSPHATE ROCK", Cell.str "China", Cell.num 30, Cell.str "bad"]]⟩

/-- What the code returns on `tblWideProd`: melted records, the
non-coercible production cell dropped. -/
def tblWideOut : RawTable :=
  ⟨["Commodity", "CountryName", "Year", "Production"],
   [[Cell.str "PHOSPHATE ROCK", Cell.str "Morocco", Cell.num 2020, Cell.num 10],
    [Cell.str "PHOSPHATE ROCK", Cell.str "China", Cell.num 2020, Cell.num 30],
    [Cell.str "PHOSPHATE ROCK", Cell.str "Morocco", Cell.num 2021, Cell.num 20]]⟩

instance {ε α : Type _} [DecidableEq ε] [DecidableEq α] :
    DecidableEq (Except ε α) := fun a b =>
  match a, b with
  | Except.ok x, Except.ok y =>
    if h : x = y then isTrue (by rw [h]) else
      isFalse (fun hc => h (by injection hc))
  | Except.error x, Except.error y =>
    if h : x = y then isTrue (by rw [h]) else
      isFalse (fun hc => h (by injection hc))
  | Except.ok _, Except.error _ => isFalse (fun hc => by injection hc)
  | Except.error _, Except.ok _ => isFalse (fun hc => by injection hc)

/-! ### Generic helper lemmas -/

theorem mapOpt_length {α β : Type _} {l : List α} {f : α → Option β}
    {bs : List β} (h : mapOpt l f = some bs) : bs.length = l.length := by
  induction l generalizing bs with
  | nil => simp only [mapOpt] at h; cases h; rfl
  | cons a as ih =>
    simp only [mapOpt] at h
    cases hfa : f a with
    | none => rw [hfa] at h; exact absurd h (by simp)
    | some b =>
      rw [hfa] at h
      cases hrest : mapOpt as f with
      | none => rw [hrest] at h; exact absurd h (by simp)
      | some bs2 =>
        rw [hrest] at h
        cases h
        simp [ih hrest]

theorem mapOpt_eq_none_of_mem {α β : Type _} {l : List α} {f : α → Option β}
    {a : α} (ha : a ∈ l) (hf : f a = none) : mapOpt l f = none := by
  induction l with
  | nil => cases ha
  | cons x xs ih =>
    rcases List.mem_cons.mp ha with rfl | hmem
    · simp only [mapOpt, hf]
    · simp only [mapOpt, ih hmem]
      cases f x <;> rfl

theorem mapOpt_mem {α β : Type _} {l : List α} {f : α → Option β}
    {bs : List β} (h : mapOpt l f = some bs) {b : β} (hb : b ∈ bs) :
    ∃ a ∈ l, f a = some b := by
  induction l generalizing bs with
  | nil => simp only [mapOpt] at h; cases h; cases hb
  | cons x xs ih =>
    simp only [mapOpt] at h
    cases hfa : f x with
    | none => rw [hfa] at h; exact absurd h (by simp)
    | some c =>
      rw [hfa] at h
      cases hrest : mapOpt xs f with
      | none => rw [hrest] at h; exact absurd h (by simp)
      | some bs2 =>
        rw [hrest] at h
        cases h
        rcases List.mem_cons.mp hb with rfl | hmem
        · exact ⟨x, List.mem_cons_self x xs, hfa⟩
        · obtain ⟨a, ha, hfa2⟩ := ih hrest hmem
          exact ⟨a, List.mem_cons_of_mem x ha, hfa2⟩

theorem mapOpt_nodup {α β : Type _} {l : List α} {f : α → Option β}
    {bs : List β} (hnd : l.Nodup) (h : mapOpt l f = some bs)
    (hinj : ∀ a₁ ∈ l, ∀ a₂ ∈ l, ∀ b, f a₁ = some b → f a₂ = some b → a₁ = a₂) :
    bs.Nodup := by
  induction l generalizing bs with
  | nil => simp only [mapOpt] at h; cases h; exact List.nodup_nil
  | cons x xs ih =>
    simp only [mapOpt] at h
    cases hfa : f x with
    | none => rw [hfa] at h; exact absurd h (by simp)
    | some c =>
      rw [hfa] at h
      cases hrest : mapOpt xs f with
      | none => rw [hrest] at h; exact absurd h (by simp)
      | some bs2 =>
        rw [hrest] at h
        cases h
        have hnd2 := List.nodup_cons.mp hnd
        refine List.nodup_cons.mpr ⟨?_, ?_⟩
        · intro hc
          obtain ⟨a, ha, hfa2⟩ := mapOpt_mem hrest hc
          have : a = x := hinj a (List.mem_cons_of_mem x ha) x
            (List.mem_cons_self x xs) c hfa2 hfa
          exact hnd2.1 (this ▸ ha)
        · exact ih hnd2.2 hrest (fun a₁ h₁ a₂ h₂ b hb₁ hb₂ =>
            hinj a₁ (List.mem_cons_of_mem x h₁) a₂ (List.mem_cons_of_mem x h₂) b hb₁ hb₂)

theorem getCell_of_length_le {r : List Cell} {i : ℕ} (h : r.length ≤ i) :
    getCell r i = Cell.blank :=
  List.getD_eq_default r Cell.blank h

theorem getCell_set_self (r : List Cell) (i : ℕ) (c : Cell) :
    getCell (r.set i c) i = if i < r.length then c else Cell.blank := by
  unfold getCell
  rw [List.getD_eq_getElem?_getD, List.getElem?_set]
  by_cases h : i < r.length <;> simp [h]

theorem getCell_set_ne (r : List Cell) {i j : ℕ} (h : j ≠ i) (c : Cell) :
    getCell (r.set j c) i = getCell r i := by
  unfold getCell
  rw [List.getD_eq_getElem?_getD, List.getElem?_set_ne h, ← List.getD_eq_getElem?_getD]

theorem findIdx_some_get {α : Type _} {p : α → Bool} {l : List α} {i : ℕ}
    (h : l.findIdx? p = some i) : ∃ a, l[i]? = some a ∧ p a = true := by
  rw [List.findIdx?_eq_some_iff_getElem] at h
  obtain ⟨hlt, hp, -⟩ := h
  exact ⟨l[i], by simp [List.getElem?_eq_getElem hlt], hp⟩

theorem findIdx_label_of_mem {cols : List String} {v : String} (h : v ∈ cols) :
    ∃ i, cols.findIdx? (fun c => c == v) = some i := by
  induction cols with
  | nil => cases h
  | cons x xs ih =>
    rw [List.findIdx?_cons]
    by_cases hx : x = v
    · exact ⟨0, by simp [hx]⟩
    · have hmem : v ∈ xs := by
        rcases List.mem_cons.mp h with rfl | hm
        · exact absurd rfl hx
        · exact hm
      obtain ⟨j, hj⟩ := ih hmem
      refine ⟨j + 1, ?_⟩
      rw [if_neg (by simp [hx]), List.findIdx?_succ, hj]
      rfl

theorem findIdx_label_some {cols : List String} {v : String} {i : ℕ}
    (h : cols.findIdx? (fun c => c == v) = some i) : cols[i]? = some v := by
  obtain ⟨a, ha, hp⟩ := findIdx_some_get h
  rwa [show a = v from by simpa using hp] at ha

/-- Renaming `o` to `n` keeps the first position of any other label `v`. -/
theorem findIdx_rename_other {cols : List String} {o n v : String}
    (hvo : v ≠ o) (hvn : v ≠ n) :
    (cols.map (fun c => if c == o then n else c)).findIdx? (fun c => c == v) =
      cols.findIdx? (fun c => c == v) := by
  induction cols with
  | nil => rfl
  | cons x xs ih =>
    simp only [List.map_cons, List.findIdx?_cons]
    by_cases hx : x = o
    · have hxv : x ≠ v := by rw [hx]; exact Ne.symm hvo
      rw [if_pos (beq_iff_eq.mpr hx),
        beq_eq_false_iff_ne.mpr (Ne.symm hvn),
        beq_eq_false_iff_ne.mpr hxv]
      simp only [Bool.false_eq_true, if_false, List.findIdx?_succ, ih]
    · rw [if_neg (fun hc => hx (beq_iff_eq.mp hc))]
      by_cases hxv : x = v
      · rw [if_pos (beq_iff_eq.mpr hxv), if_pos (beq_iff_eq.mpr hxv)]
      · rw [beq_eq_false_iff_ne.mpr hxv]
        simp only [Bool.false_eq_true, if_false, List.findIdx?_succ, ih]

/-- Renaming `o` to `n` moves the first position of `o` to be (at least one)
first position of `n`, provided `n` was not already a label (or `n = o`). -/
theorem findIdx_rename_self {cols : List String} {o n : String} {i : ℕ}
    (h : cols.findIdx? (fun c => c == o) = some i)
    (hn : n = o ∨ ¬n ∈ cols) :
    (cols.map (fun c => if c == o then n else c)).findIdx? (fun c => c == n) =
      some i := by
  induction cols generalizing i with
  | nil => simp [List.findIdx?] at h
  | cons x xs ih =>
    rw [List.findIdx?_cons] at h
    simp only [List.map_cons, List.findIdx?_cons]
    by_cases hx : x = o
    · rw [if_pos (beq_iff_eq.mpr hx)] at h
      cases h
      rw [if_pos (beq_iff_eq.mpr hx), if_pos (beq_iff_eq.mpr rfl)]
    · rw [if_neg (fun hc => hx (beq_iff_eq.mp hc))] at h
      have hxn : x ≠ n := by
        rcases hn with rfl | hn
        · exact hx
        · intro hc
          exact hn (hc ▸ List.mem_cons_self x xs)
      rw [if_neg (fun hc => hx (beq_iff_eq.mp hc)),
        beq_eq_false_iff_ne.mpr hxn]
      simp only [Bool.false_eq_true, if_false, List.findIdx?_succ] at h ⊢
      cases hr : List.findIdx? (fun c => c == o) xs with
      | none => rw [hr] at h; simp at h
      | some j =>
        rw [hr] at h
        rw [Option.map_some'] at h
        have hn2 : n = o ∨ ¬n ∈ xs := by
          rcases hn with rfl | hn
          · exact Or.inl rfl
          · exact Or.inr (fun hc => hn (List.mem_cons_of_mem x hc))
        rw [ih hr hn2]
        exact h

/-- A label other than `n` survives renaming-to-`n` as a non-member. -/
theorem not_mem_rename {cols : List String} {o n x : String}
    (hx : ¬x ∈ cols) (hxn : x ≠ n) :
    ¬x ∈ cols.map (fun c => if c == o then n else c) := by
  intro hc
  obtain ⟨c, hcmem, hceq⟩ := List.mem_map.mp hc
  by_cases hco : c = o
  · rw [if_pos (by simp [hco])] at hceq
    exact hxn hceq.symm
  · rw [if_neg (by simp [hco])] at hceq
    exact hx (hceq ▸ hcmem)

theorem char_toNat_inj {a b : Char} (h : a.toNat = b.toNat) : a = b :=
  Char.ext (UInt32.ext h)

theorem digitVal_lt {c : Char} (h : isDigitCh c = true) : digitVal c ≤ 9 := by
  unfold isDigitCh at h
  simp only [Bool.and_eq_true, decide_eq_true_eq] at h
  unfold digitVal
  omega

theorem digit_eq_of_val_eq {a b : Char} (ha : isDigitCh a = true)
    (hb : isDigitCh b = true) (h : digitVal a = digitVal b) : a = b := by
  unfold isDigitCh at ha hb
  simp only [Bool.and_eq_true, decide_eq_true_eq] at ha hb
  unfold digitVal at h
  exact char_toNat_inj (by omega)

/-- A label matching `^\d{4}M\d{2}$` is four digits, `M`, two digits. -/
theorem ym_shape {s : String} (h : isYearMonth s = true) :
    ∃ a b c d e f, s.data = [a, b, c, d, 'M', e, f] ∧
      isDigitCh a = true ∧ isDigitCh b = true ∧ isDigitCh c = true ∧
      isDigitCh d = true ∧ isDigitCh e = true ∧ isDigitCh f = true := by
  unfold isYearMonth at h
  rcases hs : s.data with _ | ⟨a, _ | ⟨b, _ | ⟨c, _ | ⟨d, _ | ⟨m, _ | ⟨e, _ | ⟨f, _ | g⟩⟩⟩⟩⟩⟩⟩ <;>
    rw [hs] at h
  all_goals first
  | exact Bool.noConfusion h
  | skip
  simp only [Bool.and_eq_true, beq_iff_eq] at h
  obtain ⟨⟨⟨⟨⟨⟨ha, hb⟩, hc⟩, hd⟩, hm⟩, he⟩, hf⟩ := h
  subst hm
  exact ⟨a, b, c, d, e, f, hs ▸ rfl, ha, hb, hc, hd, he, hf⟩

theorem parseNatDigits_four {a b c d : Char} (ha : isDigitCh a = true)
    (hb : isDigitCh b = true) (hc : isDigitCh c = true)
    (hd : isDigitCh d = true) :
    parseNatDigits [a, b, c, d] =
      some (10 * (10 * (10 * (10 * 0 + digitVal a) + digitVal b) + digitVal c) + digitVal d) := by
  unfold parseNatDigits
  rw [if_pos (by simp [ha, hb, hc, hd])]
  simp only [List.foldl_cons, List.foldl_nil]

theorem parseNatDigits_two {e f : Char} (he : isDigitCh e = true)
    (hf : isDigitCh f = true) :
    parseNatDigits [e, f] = some (10 * (10 * 0 + digitVal e) + digitVal f) := by
  unfold parseNatDigits
  rw [if_pos (by simp [he, hf])]
  simp only [List.foldl_cons, List.foldl_nil]

/-- On a `^\d{4}M\d{2}$` label, `ymDate` reads the year from the four leading
digits and the month from the two trailing digits (date validity pending). -/
theorem ymDate_on_shape {s : String} {a b c d e f : Char}
    (hs : s.data = [a, b, c, d, 'M', e, f])
    (ha : isDigitCh a = true) (hb : isDigitCh b = true)
    (hc : isDigitCh c = true) (hd : isDigitCh d = true)
    (he : isDigitCh e = true) (hf : isDigitCh f = true) :
    ymDate s =
      (if validYM
          (10 * (10 * (10 * (10 * 0 + digitVal a) + digitVal b) + digitVal c) + digitVal d)
          (10 * (10 * 0 + digitVal e) + digitVal f) then
        some
          (10 * (10 * (10 * (10 * 0 + digitVal a) + digitVal b) + digitVal c) + digitVal d,
           10 * (10 * 0 + digitVal e) + digitVal f)
      else none) := by
  unfold ymDate
  rw [hs]
  have htake : [a, b, c, d, 'M', e, f].take 4 = [a, b, c, d] := by simp
  have hdrop : [a, b, c, d, 'M', e, f].drop ([a, b, c, d, 'M', e, f].length - 2) = [e, f] := by
    simp
  rw [htake, hdrop, parseNatDigits_four ha hb hc hd, parseNatDigits_two he hf]

/-- Two `^\d{4}M\d{2}$` labels producing the same date are the same label. -/
theorem ymDate_inj {s₁ s₂ : String} (h₁ : isYearMonth s₁ = true)
    (h₂ : isYearMonth s₂ = true) {d : Date}
    (hd₁ : ymDate s₁ = some d) (hd₂ : ymDate s₂ = some d) : s₁ = s₂ := by
  obtain ⟨a₁, b₁, c₁, d₁, e₁, f₁, hs₁, ha₁, hb₁, hc₁, hd₁d, he₁, hf₁⟩ := ym_shape h₁
  obtain ⟨a₂, b₂, c₂, d₂, e₂, f₂, hs₂, ha₂, hb₂, hc₂, hd₂d, he₂, hf₂⟩ := ym_shape h₂
  rw [ymDate_on_shape hs₁ ha₁ hb₁ hc₁ hd₁d he₁ hf₁] at hd₁
  rw [ymDate_on_shape hs₂ ha₂ hb₂ hc₂ hd₂d he₂ hf₂] at hd₂
  split at hd₁
  case isFalse => exact absurd hd₁ (by simp)
  case isTrue =>
  split at hd₂
  case isFalse => exact absurd hd₂ (by simp)
  case isTrue =>
  have hp₁ := Option.some.inj hd₁
  have hp₂ := Option.some.inj hd₂
  have hy := congrArg Prod.fst (hp₁.trans hp₂.symm)
  have hm := congrArg Prod.snd (hp₁.trans hp₂.symm)
  simp only at hy hm
  have la₁ := digitVal_lt ha₁; have lb₁ := digitVal_lt hb₁
  have lc₁ := digitVal_lt hc₁; have ld₁ := digitVal_lt hd₁d
  have le₁ := digitVal_lt he₁; have lf₁ := digitVal_lt hf₁
  have la₂ := digitVal_lt ha₂; have lb₂ := digitVal_lt hb₂
  have lc₂ := digitVal_lt hc₂; have ld₂ := digitVal_lt hd₂d
  have le₂ := digitVal_lt he₂; have lf₂ := digitVal_lt hf₂
  have ea : a₁ = a₂ := digit_eq_of_val_eq ha₁ ha₂ (by omega)
  have eb : b₁ = b₂ := digit_eq_of_val_eq hb₁ hb₂ (by omega)
  have ec : c₁ = c₂ := digit_eq_of_val_eq hc₁ hc₂ (by omega)
  have ed : d₁ = d₂ := digit_eq_of_val_eq hd₁d hd₂d (by omega)
  have ee : e₁ = e₂ := digit_eq_of_val_eq he₁ he₂ (by omega)
  have ef : f₁ = f₂ := digit_eq_of_val_eq hf₁ hf₂ (by omega)
  apply String.ext
  rw [hs₁, hs₂, ea, eb, ec, ed, ee, ef]

/-- The dates of the kept (non-NaN) pairs form a sublist of all the dates. -/
theorem series_dates_sublist (l : List (Date × Option ℚ)) :
    ((l.filterMap (fun p => (p.2).map (fun q => PricePoint.mk p.1 q))).map PricePoint.date).Sublist
      (l.map Prod.fst) := by
  induction l with
  | nil => simp
  | cons p ps ih =>
    cases hp : p.2 with
    | none =>
      rw [List.filterMap_cons_none (by rw [hp]; rfl), List.map_cons]
      exact ih.cons _
    | some q =>
      rw [List.filterMap_cons_some (show _ = some (PricePoint.mk p.1 q) by rw [hp]; rfl),
        List.map_cons, List.map_cons]
      exact ih.cons₂ _

theorem dateLt_of_le_ne {a b : Date} (hle : dateLe a b) (hne : a ≠ b) :
    dateLt a b := by
  unfold dateLe at hle
  unfold dateLt
  rcases a with ⟨y1, m1⟩
  rcases b with ⟨y2, m2⟩
  rw [Ne, Prod.mk.injEq] at hne
  simp only at hle ⊢
  omega

/-- Core of C5: under distinct column labels, the series built from a row is
strictly ascending in date. -/
theorem buildSeries_strict_sorted {cols : List String} {r : List Cell}
    {s : List PricePoint} (hnd : cols.Nodup) (h : buildSeries cols r = some s) :
    List.Pairwise (fun p q => dateLt p.date q.date) s := by
  unfold buildSeries at h
  cases hmo : mapOpt (ymCols cols) ymDate with
  | none => rw [hmo] at h; exact absurd h (by simp)
  | some dates =>
    rw [hmo] at h
    have hs : s = List.insertionSort pointLe
        ((dates.zip ((ymCols cols).map (fun c => toNumeric (cellAt cols r c)))).filterMap
          (fun p => (p.2).map (fun q => PricePoint.mk p.1 q))) :=
      (Option.some.inj h).symm
    have hnd1 : (ymCols cols).Nodup := hnd.filter _
    have hym : ∀ c ∈ ymCols cols, isYearMonth c = true :=
      fun c hc => (List.mem_filter.mp hc).2
    have hdnd : dates.Nodup := mapOpt_nodup hnd1 hmo
      (fun a₁ h₁ a₂ h₂ b hb₁ hb₂ => ymDate_inj (hym a₁ h₁) (hym a₂ h₂) hb₁ hb₂)
    have hlen : dates.length = (ymCols cols).length := mapOpt_length hmo
    have hfst : (dates.zip ((ymCols cols).map
        (fun c => toNumeric (cellAt cols r c)))).map Prod.fst = dates :=
      List.map_fst_zip _ _ (by rw [hlen, List.length_map])
    have hsub := series_dates_sublist
      (dates.zip ((ymCols cols).map (fun c => toNumeric (cellAt cols r c))))
    rw [hfst] at hsub
    have hknd := List.Nodup.sublist hsub hdnd
    have hperm := List.perm_insertionSort pointLe
      ((dates.zip ((ymCols cols).map (fun c => toNumeric (cellAt cols r c)))).filterMap
        (fun p => (p.2).map (fun q => PricePoint.mk p.1 q)))
    have hsnd : (s.map PricePoint.date).Nodup := by
      rw [hs]
      exact List.Perm.nodup ((hperm.map PricePoint.date).symm) hknd
    have hsort : List.Pairwise pointLe s := by
      rw [hs]
      exact List.sorted_insertionSort pointLe _
    have hne := List.pairwise_map.mp hsnd
    exact (hsort.and hne).imp (fun hab => dateLt_of_le_ne hab.1 hab.2)

/-- Computation rule for a URL attempt once the sheet is chosen. -/
theorem tryUrl_eq_of_sheet {wb : Workbook} {t : RawTable}
    (ht : chooseSheet wb = some t) :
    tryUrl (some wb) =
      (if t.cols.isEmpty then none
       else
         match matchRow t with
         | none => none
         | some r =>
           if (ymCols t.cols).isEmpty then none else buildSeries t.cols r) := by
  simp only [tryUrl]
  rw [ht]

/-- Inversion of a successful URL attempt: the chosen sheet has a matched row
from which the series was built. -/
theorem tryUrl_inv {wb : Workbook} {t : RawTable} {s : List PricePoint}
    (ht : chooseSheet wb = some t) (h : tryUrl (some wb) = some s) :
    ∃ r, matchRow t = some r ∧ buildSeries t.cols r = some s := by
  rw [tryUrl_eq_of_sheet ht] at h
  split at h
  · exact absurd h (by simp)
  · split at h
    · exact absurd h (by simp)
    · rename_i r heq
      split at h
      · exact absurd h (by simp)
      · exact ⟨r, heq, h⟩

/-- Every price in a built series is the numeric coercion of a cell read off
the matched row. -/
theorem buildSeries_price_from_row {cols : List String} {r : List Cell}
    {s : List PricePoint} (h : buildSeries cols r = some s) {p : PricePoint}
    (hp : p ∈ s) : ∃ i, toNumeric (getCell r i) = some p.price := by
  unfold buildSeries at h
  cases hmo : mapOpt (ymCols cols) ymDate with
  | none => rw [hmo] at h; exact absurd h (by simp)
  | some dates =>
    rw [hmo] at h
    have hs := (Option.some.inj h).symm
    rw [hs] at hp
    have hp2 := (List.perm_insertionSort pointLe _).subset hp
    obtain ⟨⟨d, ov⟩, hpair, hmk⟩ := List.mem_filterMap.mp hp2
    cases ho : ov with
    | none => rw [ho] at hmk; exact absurd hmk (by simp)
    | some q =>
      rw [ho] at hmk
      have hq : PricePoint.mk d q = p := by simpa using hmk
      have hov := (List.of_mem_zip hpair).2
      obtain ⟨c, -, hcv⟩ := List.mem_map.mp hov
      unfold cellAt at hcv
      cases hidx : cols.findIdx? (fun x => x == c) with
      | none =>
        rw [hidx] at hcv
        rw [ho] at hcv
        exact absurd hcv (by simp [toNumeric])
      | some i =>
        rw [hidx, ho] at hcv
        refine ⟨i, ?_⟩
        rw [hcv]
        rw [← hq]

theorem getCell_mem_or_blank (r : List Cell) (i : ℕ) :
    getCell r i ∈ r ∨ getCell r i = Cell.blank := by
  by_cases h : i < r.length
  · left
    unfold getCell
    rw [List.getD_eq_getElem?_getD, List.getElem?_eq_getElem h]
    exact List.getElem_mem h
  · right
    exact getCell_of_length_le (by omega)

theorem momPct_isSome_of_two {s : List PricePoint} (h : 2 ≤ s.length) :
    (momPct s).isSome = true := by
  unfold momPct
  cases hr : s.reverse with
  | nil =>
    have h1 := congrArg List.length hr
    rw [List.length_reverse, List.length_nil] at h1
    omega
  | cons a tl =>
    cases tl with
    | nil =>
      have h1 := congrArg List.length hr
      rw [List.length_reverse, List.length_cons, List.length_nil] at h1
      omega
    | cons b tl2 => simp

theorem isBlank_numOrBlank (o : Option ℚ) :
    (!(isBlank (numOrBlank o))) = o.isSome := by
  cases o <;> rfl

theorem getCell_set_numOrBlank (r : List Cell) (i : ℕ) (o : Option ℚ) :
    getCell (r.set i (numOrBlank o)) i = Cell.blank ∨
      ∃ q, getCell (r.set i (numOrBlank o)) i = Cell.num q := by
  rw [getCell_set_self]
  by_cases h : i < r.length
  · rw [if_pos h]
    cases o with
    | none => exact Or.inl rfl
    | some q => exact Or.inr ⟨q, rfl⟩
  · rw [if_neg h]
    exact Or.inl rfl

/-- Any row of a numerically coerced column holds a number or NaN at the
coerced position. -/
theorem mem_coerced_rows_shape {rows : List (List Cell)} {i : ℕ} {r2 : List Cell}
    (h : r2 ∈ rows.map (fun r => r.set i (numOrBlank (toNumeric (getCell r i))))) :
    getCell r2 i = Cell.blank ∨ ∃ q, getCell r2 i = Cell.num q := by
  obtain ⟨r, -, rfl⟩ := List.mem_map.mp h
  exact getCell_set_numOrBlank r i _

/-- Counting rows that survive a production-column coercion followed by a
`dropna` on that column: exactly the rows whose production cell coerces,
independently of any earlier transformation `g1` that leaves the production
position (and the row length) unchanged. -/
theorem filter_coerced_length (rows : List (List Cell))
    (g1 : List Cell → List Cell) (iv : ℕ)
    (hg1len : ∀ r, (g1 r).length = r.length)
    (hg1get : ∀ r, getCell (g1 r) iv = getCell r iv) :
    ((rows.map (fun r => (g1 r).set iv (numOrBlank (toNumeric (getCell (g1 r) iv))))).filter
      (fun r => !(isBlank (getCell r iv)))).length =
    (rows.filter (fun r => (toNumeric (getCell r iv)).isSome)).length := by
  rw [List.filter_map, List.length_map]
  have hcongr : ∀ r ∈ rows,
      ((fun r => !(isBlank (getCell r iv))) ∘
        (fun r => (g1 r).set iv (numOrBlank (toNumeric (getCell (g1 r) iv))))) r =
      (toNumeric (getCell r iv)).isSome := by
    intro r _
    simp only [Function.comp]
    rw [getCell_set_self]
    by_cases h : iv < (g1 r).length
    · rw [if_pos h, isBlank_numOrBlank, hg1get]
    · rw [if_neg h]
      have hge : r.length ≤ iv := by rw [← hg1len r]; omega
      rw [getCell_of_length_le hge]
      rfl
  rw [List.filter_congr hcongr]

/-- Facts about the candidate production-column names. -/
theorem candidate_facts {v : String} (h : v ∈ candidateCols) :
    v ≠ "Country" ∧ v ≠ "CountryName" ∧ v ≠ "Year" ∧ isYear v = false := by
  unfold candidateCols at h
  simp only [List.mem_cons, List.not_mem_nil, or_false] at h
  rcases h with rfl | rfl | rfl | rfl | rfl <;> refine ⟨?_, ?_, ?_, ?_⟩ <;> decide

/-- The first candidate is the literal "Production": if the search settles on
another name, no column is labelled "Production". -/
theorem find_candidate_head {cols : List String} {v : String}
    (h : candidateCols.find? (fun c => cols.contains c) = some v) :
    v = "Production" ∨ ¬"Production" ∈ cols := by
  by_cases hp : cols.contains "Production" = true
  · left
    unfold candidateCols at h
    rw [List.find?_cons_of_pos _ hp] at h
    exact (Option.some.inj h).symm
  · right
    intro hmem
    exact hp (List.elem_iff.mpr hmem)

/-- A label that maps to itself under a rename stays a member. -/
theorem mem_rename_of_fixed {cols : List String} {c o n : String}
    (hmem : c ∈ cols) (hco : c ≠ o) :
    c ∈ cols.map (fun x => if x == o then n else x) := by
  have hfix : (fun x => if x == o then n else x) c = c := by
    show (if (c == o) = true then n else c) = c
    rw [if_neg (fun hc2 => hco (beq_iff_eq.mp hc2))]
  exact hfix ▸ List.mem_map_of_mem _ hmem

theorem commodityFilter_cols (t : RawTable) (i : ℕ) :
    (commodityFilter t i).cols = t.cols := rfl

theorem coerceCol_cols (t : RawTable) (nm : String) :
    (coerceCol t nm).cols = t.cols := by
  unfold coerceCol
  cases t.cols.findIdx? (fun c => c == nm) <;> rfl

theorem renameCol_rows (t : RawTable) (o n : String) :
    (renameCol t o n).rows = t.rows := rfl

theorem dropnaOn_cols (t : RawTable) (nms : List String) :
    (dropnaOn t nms).cols = t.cols := rfl

/-- Unfolding `coerceCol` when the column exists. -/
theorem coerceCol_rows_of_idx {t : RawTable} {nm : String} {i : ℕ}
    (h : t.cols.findIdx? (fun c => c == nm) = some i) :
    (coerceCol t nm).rows =
      t.rows.map (fun r => r.set i (numOrBlank (toNumeric (getCell r i)))) := by
  unfold coerceCol
  rw [h]

theorem renameCol_cols (t : RawTable) (o n : String) :
    (renameCol t o n).cols = t.cols.map (fun c => if c == o then n else c) := rfl

theorem melt_cols (t : RawTable) (idv vv : List String) (yn vn : String) :
    (melt t idv vv yn vn).cols = idv ++ [yn, vn] := rfl

theorem coerceCol_id_of_none {t : RawTable} {nm : String}
    (h : t.cols.findIdx? (fun c => c == nm) = none) : coerceCol t nm = t := by
  unfold coerceCol
  rw [h]

theorem dropnaOn_single_rows {t : RawTable} {nm : String} {i : ℕ}
    (h : t.cols.findIdx? (fun c => c == nm) = some i) :
    (dropnaOn t [nm]).rows =
      t.rows.filter (fun r => !(isBlank (getCell r i))) := by
  unfold dropnaOn
  simp only [List.all_cons, List.all_nil, Bool.and_true, h]

theorem dropnaOn_pair_rows {t : RawTable} {nm1 nm2 : String} {i1 i2 : ℕ}
    (h1 : t.cols.findIdx? (fun c => c == nm1) = some i1)
    (h2 : t.cols.findIdx? (fun c => c == nm2) = some i2) :
    (dropnaOn t [nm1, nm2]).rows =
      t.rows.filter
        (fun r => !(isBlank (getCell r i1)) && (!(isBlank (getCell r i2)) && true)) := by
  unfold dropnaOn
  simp only [List.all_cons, List.all_nil, h1, h2]

/-- Computation rule for `fetch_usgs_world` once the commodity column is
located. -/
theorem usgs_eq_of_commodity {t0 : RawTable} {i : ℕ}
    (hc : (stripTable t0).cols.findIdx? (fun c => c == "Commodity") = some i) :
    fetch_usgs_world t0 =
      match candidateCols.find?
          (fun c => (commodityFilter (stripTable t0) i).cols.contains c) with
      | some v => Except.ok (usgsLong (commodityFilter (stripTable t0) i) v)
      | none =>
        if ((commodityFilter (stripTable t0) i).cols.filter isYear).isEmpty then
          Except.error "RuntimeError: no production column"
        else
          Except.ok (usgsWide (commodityFilter (stripTable t0) i)
            ((commodityFilter (stripTable t0) i).cols.filter isYear)) := by
  unfold fetch_usgs_world
  rw [hc]

/-- In the Long branch, the first position labelled "Production" after the
final rename is the position of the chosen value column. -/
theorem long_production_idx {tcols : List String} {v : String} {iv : ℕ}
    (hvC : v ≠ "Country") (hvCN : v ≠ "CountryName")
    (hiv : tcols.findIdx? (fun c => c == v) = some iv)
    (hfirst : v = "Production" ∨ ¬"Production" ∈ tcols) :
    ((tcols.map (fun c => if c == "Country" then "CountryName" else c)).map
        (fun c => if c == v then "Production" else c)).findIdx?
      (fun c => c == "Production") = some iv := by
  have hiv1 : (tcols.map (fun c => if c == "Country" then "CountryName" else c)).findIdx?
      (fun c => c == v) = some iv := by
    rw [findIdx_rename_other hvC hvCN]
    exact hiv
  apply findIdx_rename_self hiv1
  rcases hfirst with rfl | hnp
  · exact Or.inl rfl
  · exact Or.inr (not_mem_rename hnp (by decide))

/-- Computation rule for the YoY metric once the latest point is known. -/
theorem yoy_eq_of_last {s : List PricePoint} {latest : PricePoint}
    (h : s.getLast? = some latest) :
    yoy s =
      match (s.filter (fun p => decide (p.date = minus12 latest.date))).head? with
      | none => none
      | some old => some ((latest.price - old.price) / old.price * 100) := by
  unfold yoy
  rw [h]

/-! ### Claim theorems -/

/-- C1: the claim is what the spec demands, but the code violates it.  Fed a
first workbook whose phosphate-rock row has a single year-month column with
a non-numeric value (so step 7 keeps zero pairs), `fetch_worldbank_price`
returns the empty series `Except.ok []` from that URL instead of advancing to
the second workbook, although the second URL alone would produce a non-empty
series: the source has no emptiness check between `dropna()` and `return`. -/
theorem c1_empty_series_returned :
    fetch_worldbank_price [some wbNoNum, some wbFallback] = Except.ok [] ∧
    fetch_worldbank_price [some wbFallback] =
      Except.ok [PricePoint.mk (2023, 1) 100] := by
  constructor <;> decide

/-- C7: round-trip on the synthetic wide-form table with columns
`2023M01=100, 2023M02=110, 2023M03=121`: the extractor yields exactly the
points (2023-01,100), (2023-02,110), (2023-03,121). -/
theorem c7_round_trip :
    fetch_worldbank_price [some wbRound] =
      Except.ok [PricePoint.mk (2023, 1) 100, PricePoint.mk (2023, 2) 110,
        PricePoint.mk (2023, 3) 121] := by
  decide

/-- C4, counterexample: on `seriesYoYZero` the point exactly 12 months before
the latest date carries price 0, yet the YoY metric is computed (present, not
absent); likewise the MoM metric on `seriesMomZero` whose second-to-last
value is 0.  In the floating-point source this present value is `inf`, so the
claim's "yields an absent metric / never exposes Infinity" is false. -/
theorem c4_counterexample_zero_divisor :
    seriesYoYZero.getLast? = some (PricePoint.mk (2023, 3) 121) ∧
    (seriesYoYZero.filter
      (fun p => decide (p.date = minus12 (2023, 3)))).head? =
        some (PricePoint.mk (2022, 3) 0) ∧
    (yoy seriesYoYZero).isSome = true ∧
    (momPct seriesMomZero).isSome = true := by
  decide

/-- C4, amended: a zero divisor does not make the metric absent — presence
depends only on available history.  With a latest point whose 12-months-ago
match exists and has price 0, the YoY metric is still present, and with at
least two points the MoM metric is still present; no error is raised (the
model is total). -/
theorem c4_presence_ignores_zero_divisor (s : List PricePoint)
    (latest old : PricePoint) (h1 : s.getLast? = some latest)
    (h2 : (s.filter (fun p => decide (p.date = minus12 latest.date))).head? =
      some old)
    (h0 : old.price = 0) :
    (yoy s).isSome = true ∧ (2 ≤ s.length → (momPct s).isSome = true) := by
  refine ⟨?_, fun hlen => momPct_isSome_of_two hlen⟩
  rw [yoy_eq_of_last h1, h2]
  rfl

/-- Witness for C4's amended theorem at `seriesYoYZero`. -/
theorem c4_presence_ignores_zero_divisor_witness :
    (yoy seriesYoYZero).isSome = true ∧
      (2 ≤ seriesYoYZero.length → (momPct seriesYoYZero).isSome = true) :=
  c4_presence_ignores_zero_divisor seriesYoYZero
    (PricePoint.mk (2023, 3) 121) (PricePoint.mk (2022, 3) 0)
    (by decide) (by decide) (by decide)

/-- C8, counterexample: the extractor performs no sign check; a workbook whose
phosphate-rock row holds -5 under a year-month column yields a returned point
with a negative price, refuting "every price value ... is non-negative". -/
theorem c8_counterexample_negative_price :
    fetch_worldbank_price [some wbNeg] =
      Except.ok [PricePoint.mk (2023, 1) (-5)] ∧
    (PricePoint.mk (2023, 1) (-5)).price < 0 := by
  constructor
  · decide
  · decide

/-- C8, amended: absent (non-numeric) values are dropped rather than
null-padded — every returned price is the successful numeric coercion of a
cell of the matched row — so the returned prices are non-negative whenever
the matched row's numerically coercible cells are all non-negative; the code
itself enforces no sign constraint. -/
theorem c8_nonneg_when_source_nonneg (wb : Workbook) (t : RawTable)
    (r : List Cell) (s : List PricePoint)
    (ht : chooseSheet wb = some t) (hr : matchRow t = some r)
    (hnn : ∀ cell ∈ r, 0 ≤ (toNumeric cell).getD 0)
    (hs : tryUrl (some wb) = some s) :
    ∀ p ∈ s, 0 ≤ p.price := by
  intro p hp
  obtain ⟨r2, hr2, hb⟩ := tryUrl_inv ht hs
  rw [hr] at hr2
  cases Option.some.inj hr2
  obtain ⟨i, hi⟩ := buildSeries_price_from_row hb hp
  rcases getCell_mem_or_blank r i with hmem | hblank
  · have := hnn (getCell r i) hmem
    rwa [hi, Option.getD_some] at this
  · rw [hblank] at hi
    exact absurd hi (by simp [toNumeric])

/-- Witness for C8's amended theorem at `wbFallback`, read off at its single
returned point. -/
theorem c8_nonneg_when_source_nonneg_witness :
    0 ≤ (PricePoint.mk (2023, 1) 100).price :=
  c8_nonneg_when_source_nonneg wbFallback tblFallback
    [Cell.str "Phosphate rock (Morocco)", Cell.num 100]
    [PricePoint.mk (2023, 1) 100]
    (by decide) (by decide) (by decide) (by decide)
    (PricePoint.mk (2023, 1) 100) (by decide)

/-- C9: a year-month column whose label encodes a calendar-invalid month
(e.g. `2023M13`) makes the date construction raise; the exception aborts the
entire URL attempt (`tryUrl` yields `none`, no partial series) and the loop
advances to the next candidate URL. -/
theorem c9_invalid_month_aborts_url (wb : Workbook) (t : RawTable) (c : String)
    (rest : List (Option Workbook)) (ht : chooseSheet wb = some t)
    (hc : c ∈ ymCols t.cols) (hbad : ymDate c = none) :
    tryUrl (some wb) = none ∧
      fetch_worldbank_price (some wb :: rest) = fetch_worldbank_price rest := by
  have hmemcols : c ∈ t.cols := (List.mem_filter.mp hc).1
  have hemp : ¬t.cols.isEmpty = true := by
    cases hcols : t.cols with
    | nil => rw [hcols] at hmemcols; cases hmemcols
    | cons x xs => simp
  have hyne : ¬(ymCols t.cols).isEmpty = true := by
    cases hy : ymCols t.cols with
    | nil => rw [hy] at hc; cases hc
    | cons x xs => simp
  have h1 : tryUrl (some wb) = none := by
    rw [tryUrl_eq_of_sheet ht, if_neg hemp]
    cases hr : matchRow t with
    | none => rfl
    | some r =>
      simp only
      rw [if_neg hyne]
      unfold buildSeries
      rw [mapOpt_eq_none_of_mem hc hbad]
  exact ⟨h1, by simp only [fetch_worldbank_price, h1]⟩

/-- Witness for C9 at the workbook with column `2023M13`. -/
theorem c9_invalid_month_aborts_url_witness :
    tryUrl (some wbBadMonth) = none ∧
      fetch_worldbank_price [some wbBadMonth, some wbFallback] =
        fetch_worldbank_price [some wbFallback] :=
  c9_invalid_month_aborts_url wbBadMonth tblBadMonth "2023M13"
    [some wbFallback] (by decide) (by decide) (by decide)

/-- C5: whenever a URL attempt succeeds with series `s` from a chosen sheet
with distinct column labels (pandas deduplicates labels at parse time), `s`
is strictly ascending in date — sorted with no duplicate months. -/
theorem c5_series_strictly_ascending (wb : Workbook) (t : RawTable)
    (s : List PricePoint) (ht : chooseSheet wb = some t) (hnd : t.cols.Nodup)
    (hs : tryUrl (some wb) = some s) :
    List.Pairwise (fun p q => dateLt p.date q.date) s := by
  obtain ⟨r, -, hb⟩ := tryUrl_inv ht hs
  exact buildSeries_strict_sorted hnd hb

/-- Witness for C5 at a workbook whose year-month columns are listed out of
order: the returned series is nevertheless strictly ascending. -/
theorem c5_series_strictly_ascending_witness :
    List.Pairwise (fun p q => dateLt p.date q.date)
      [PricePoint.mk (2023, 1) 100, PricePoint.mk (2023, 2) 110] :=
  c5_series_strictly_ascending wbUnsorted tblUnsorted
    [PricePoint.mk (2023, 1) 100, PricePoint.mk (2023, 2) 110]
    (by decide) (by decide) (by decide)

/-- C6: the YoY metric is present iff some point is dated exactly 12 calendar
months before the latest point's date; when the first such point is `old`,
the metric equals `(latest - old) / old * 100`, and with no such point it is
absent. -/
theorem c6_yoy_presence_iff_year_ago (s : List PricePoint)
    (latest : PricePoint) (h : s.getLast? = some latest) :
    (yoy s = none ↔ ¬∃ p ∈ s, p.date = minus12 latest.date) ∧
    (∀ old,
      (s.filter (fun p => decide (p.date = minus12 latest.date))).head? =
        some old →
      yoy s = some ((latest.price - old.price) / old.price * 100)) := by
  have hyoy := yoy_eq_of_last h
  cases hh : (s.filter (fun p => decide (p.date = minus12 latest.date))).head? with
  | none =>
    rw [hh] at hyoy
    have hyoy2 : yoy s = none := hyoy.trans rfl
    refine ⟨⟨fun _ => ?_, fun _ => hyoy2⟩, fun old hold => ?_⟩
    · rw [List.head?_eq_none_iff, List.filter_eq_nil_iff] at hh
      rintro ⟨p, hp, hd⟩
      exact hh p hp (by simpa using hd)
    · exact Option.noConfusion hold
  | some old2 =>
    rw [hh] at hyoy
    have hyoy2 : yoy s =
        some ((latest.price - old2.price) / old2.price * 100) := hyoy.trans rfl
    refine ⟨⟨fun hc => ?_, fun hne => ?_⟩, fun old hold => ?_⟩
    · rw [hyoy2] at hc
      cases hc
    · exfalso
      have hmem := List.mem_of_mem_head? (Option.mem_def.mpr hh)
      have := List.mem_filter.mp hmem
      exact hne ⟨old2, this.1, by simpa using this.2⟩
    · have heq := Option.some.inj hold
      rw [← heq]
      exact hyoy2

/-- Witness for C6 at `seriesYoY`: `(2022-03,100)` is exactly 12 months
before the latest `(2023-03,121)` and the metric is `21`. -/
theorem c6_yoy_presence_iff_year_ago_witness :
    (yoy seriesYoY = none ↔
      ¬∃ p ∈ seriesYoY, p.date = minus12 (2023, 3)) ∧
    (∀ old,
      (seriesYoY.filter (fun p => decide (p.date = minus12 (2023, 3)))).head? =
        some old →
      yoy seriesYoY = some ((121 - old.price) / old.price * 100)) :=
  c6_yoy_presence_iff_year_ago seriesYoY (PricePoint.mk (2023, 3) 121)
    (by decide)

/-- C2, counterexample: `tblCandidateYear` carries the bare-year column
`2020`, yet because a `Production` column is also present the code takes the
Long branch: the result keeps `2020` as an ordinary column and is not melted
(no `Year` column in the output), refuting the claimed Wide classification. -/
theorem c2_counterexample_candidate_blocks_melt :
    fetch_usgs_world tblCandidateYear = Except.ok tblCandidateYearOut ∧
    isYear "2020" = true ∧
    "2020" ∈ tblCandidateYearOut.cols ∧
    ¬"Year" ∈ tblCandidateYearOut.cols := by
  refine ⟨by decide, by decide, by decide, by decide⟩

/-- C2, amended: the melt happens only when no candidate production-count
column exists.  Whenever a candidate column (e.g. "Production") is found, the
Long branch runs and every bare four-digit-year column of the filtered table
survives as a column of the output instead of being melted into rows. -/
theorem c2_candidate_column_blocks_melt (t0 : RawTable) (i : ℕ) (v : String)
    (hc : (stripTable t0).cols.findIdx? (fun c => c == "Commodity") = some i)
    (hv : candidateCols.find?
      (fun c => (commodityFilter (stripTable t0) i).cols.contains c) = some v) :
    ∃ u, fetch_usgs_world t0 = Except.ok u ∧
      ∀ c ∈ (stripTable t0).cols, isYear c = true → c ∈ u.cols := by
  refine ⟨usgsLong (commodityFilter (stripTable t0) i) v, ?_, ?_⟩
  · rw [usgs_eq_of_commodity hc, hv]
  · intro c hmem hyc
    obtain ⟨hvC, hvCN, hvY, hvyear⟩ := candidate_facts (List.mem_of_find?_eq_some hv)
    have hcC : c ≠ "Country" := by
      intro h2
      rw [h2] at hyc
      exact absurd hyc (by decide)
    have hcv : c ≠ v := by
      intro h2
      rw [h2, hvyear] at hyc
      cases hyc
    show c ∈ (dropnaOn (renameCol
      (coerceCol (coerceCol (renameCol (commodityFilter (stripTable t0) i)
        "Country" "CountryName") "Year") v) v "Production") ["Production"]).cols
    rw [dropnaOn_cols, renameCol_cols, coerceCol_cols, coerceCol_cols,
      renameCol_cols]
    exact mem_rename_of_fixed (mem_rename_of_fixed hmem hcC) hcv

/-- Witness for C2's amended theorem at `tblCandidateYear`. -/
theorem c2_candidate_column_blocks_melt_witness :
    ∃ u, fetch_usgs_world tblCandidateYear = Except.ok u ∧
      ∀ c ∈ (stripTable tblCandidateYear).cols, isYear c = true → c ∈ u.cols :=
  c2_candidate_column_blocks_melt tblCandidateYear 0 "Production"
    (by decide) (by decide)

/-- C3, counterexample: in `tblLongBadYear` the first row's year "n/a" fails
numeric coercion but its production coerces; the code keeps that row (with a
NaN year) while dropping only the row whose production fails — refuting the
claim that year-coercion failures are dropped like production-coercion
failures. -/
theorem c3_counterexample_bad_year_row_kept :
    fetch_usgs_world tblLongBadYear = Except.ok
      ⟨["Commodity", "Year", "Production"],
       [[Cell.str "PHOSPHATE ROCK", Cell.blank, Cell.num 5]]⟩ := by
  decide

/-- C3, amended: the Long branch drops exactly the rows whose production
value fails numeric coercion; a row whose year fails coercion is retained
(with an absent year), so the returned row count equals the number of
commodity-filtered rows with coercible production, regardless of year
coercibility. -/
theorem c3_only_production_failures_dropped (t0 : RawTable) (i iv : ℕ)
    (v : String)
    (hc : (stripTable t0).cols.findIdx? (fun c => c == "Commodity") = some i)
    (hv : candidateCols.find?
      (fun c => (commodityFilter (stripTable t0) i).cols.contains c) = some v)
    (hiv : (stripTable t0).cols.findIdx? (fun c => c == v) = some iv) :
    ∃ u, fetch_usgs_world t0 = Except.ok u ∧
      u.rows.length = ((commodityFilter (stripTable t0) i).rows.filter
        (fun r => (toNumeric (getCell r iv)).isSome)).length := by
  refine ⟨usgsLong (commodityFilter (stripTable t0) i) v, ?_, ?_⟩
  · rw [usgs_eq_of_commodity hc, hv]
  · obtain ⟨hvC, hvCN, hvY, -⟩ := candidate_facts (List.mem_of_find?_eq_some hv)
    have hiv1 : ((commodityFilter (stripTable t0) i).cols.map
        (fun c => if c == "Country" then "CountryName" else c)).findIdx?
        (fun c => c == v) = some iv := by
      rw [findIdx_rename_other hvC hvCN]
      exact hiv
    have hiv2 : (coerceCol (renameCol (commodityFilter (stripTable t0) i)
        "Country" "CountryName") "Year").cols.findIdx?
        (fun c => c == v) = some iv := by
      rw [coerceCol_cols, renameCol_cols]
      exact hiv1
    have hprod : (renameCol (coerceCol (coerceCol
        (renameCol (commodityFilter (stripTable t0) i) "Country" "CountryName")
        "Year") v) v "Production").cols.findIdx?
        (fun c => c == "Production") = some iv := by
      rw [renameCol_cols, coerceCol_cols, coerceCol_cols, renameCol_cols]
      exact long_production_idx hvC hvCN hiv (find_candidate_head hv)
    show (dropnaOn (renameCol (coerceCol (coerceCol
      (renameCol (commodityFilter (stripTable t0) i) "Country" "CountryName")
      "Year") v) v "Production") ["Production"]).rows.length = _
    rw [dropnaOn_single_rows hprod, renameCol_rows, coerceCol_rows_of_idx hiv2]
    cases hYear : (renameCol (commodityFilter (stripTable t0) i)
        "Country" "CountryName").cols.findIdx? (fun c => c == "Year") with
    | none =>
      rw [coerceCol_id_of_none hYear, renameCol_rows]
      exact filter_coerced_length _ (fun r => r) iv (fun r => rfl) (fun r => rfl)
    | some iy =>
      have hne : iv ≠ iy := by
        intro h2
        have g1 := findIdx_label_some hiv1
        have g2 := findIdx_label_some hYear
        rw [renameCol_cols] at g2
        rw [h2] at g1
        rw [g1] at g2
        exact hvY (Option.some.inj g2)
      rw [coerceCol_rows_of_idx hYear, renameCol_rows, List.map_map]
      exact filter_coerced_length _
        (fun r => r.set iy (numOrBlank (toNumeric (getCell r iy)))) iv
        (fun r => List.length_set r iy _)
        (fun r => getCell_set_ne r hne.symm _)

/-- Witness for C3's amended theorem at `tblLongBadYear`. -/
theorem c3_only_production_failures_dropped_witness :
    ∃ u, fetch_usgs_world tblLongBadYear = Except.ok u ∧
      u.rows.length = ((commodityFilter (stripTable tblLongBadYear) 0).rows.filter
        (fun r => (toNumeric (getCell r 2)).isSome)).length :=
  c3_only_production_failures_dropped tblLongBadYear 0 2 "Production"
    (by decide) (by decide) (by decide)

/-- C10: in both the Long and the Wide (melt) branch, every returned record
has a present numeric production value: the output has a `Production` column
and every returned row holds a number (never NaN, never an uncoerced value)
at that column. -/
theorem c10_production_always_present (t0 : RawTable) (u : RawTable)
    (h : fetch_usgs_world t0 = Except.ok u) :
    ∃ ip, u.cols.findIdx? (fun c => c == "Production") = some ip ∧
      ∀ r ∈ u.rows, ∃ q, getCell r ip = Cell.num q := by
  unfold fetch_usgs_world at h
  split at h
  · exact absurd h (by simp)
  · rename_i i hc
    split at h
    · rename_i v hv
      injection h with hu
      subst hu
      obtain ⟨hvC, hvCN, hvY, -⟩ :=
        candidate_facts (List.mem_of_find?_eq_some hv)
      have hvmemB : (commodityFilter (stripTable t0) i).cols.contains v = true :=
        List.find?_some hv
      have hvmem : v ∈ (commodityFilter (stripTable t0) i).cols :=
        List.elem_iff.mp hvmemB
      obtain ⟨iv, hiv⟩ := findIdx_label_of_mem hvmem
      have hprod : (renameCol (coerceCol (coerceCol
          (renameCol (commodityFilter (stripTable t0) i) "Country" "CountryName")
          "Year") v) v "Production").cols.findIdx?
          (fun c => c == "Production") = some iv := by
        rw [renameCol_cols, coerceCol_cols, coerceCol_cols, renameCol_cols]
        exact long_production_idx hvC hvCN hiv (find_candidate_head hv)
      have hiv2 : (coerceCol (renameCol (commodityFilter (stripTable t0) i)
          "Country" "CountryName") "Year").cols.findIdx?
          (fun c => c == v) = some iv := by
        rw [coerceCol_cols, renameCol_cols, findIdx_rename_other hvC hvCN]
        exact hiv
      refine ⟨iv, hprod, ?_⟩
      intro r hr
      rw [show (usgsLong (commodityFilter (stripTable t0) i) v).rows =
        ((renameCol (coerceCol (coerceCol
          (renameCol (commodityFilter (stripTable t0) i) "Country" "CountryName")
          "Year") v) v "Production").rows.filter
            (fun r => !(isBlank (getCell r iv)))) from
        dropnaOn_single_rows hprod] at hr
      obtain ⟨hmem, hkeep⟩ := List.mem_filter.mp hr
      rw [renameCol_rows, coerceCol_rows_of_idx hiv2] at hmem
      rcases mem_coerced_rows_shape hmem with hbl | hnum
      · exfalso
        rw [hbl] at hkeep
        simp [isBlank] at hkeep
      · exact hnum
    · rename_i hvnone
      split at h
      · exact absurd h (by simp)
      · injection h with hu
        subst hu
        have hnp : ¬"Production" ∈ (commodityFilter (stripTable t0) i).cols := by
          intro hmem
          exact List.find?_eq_none.mp hvnone "Production" (by decide)
            (List.elem_iff.mpr hmem)
        have hidvnone : ((commodityFilter (stripTable t0) i).cols.filter
            (fun c => !(isYear c))).findIdx? (fun c => c == "Production") = none := by
          rw [List.findIdx?_eq_none_iff]
          intro x hx
          rw [beq_eq_false_iff_ne]
          intro h2
          exact hnp (h2 ▸ (List.mem_filter.mp hx).1)
        have hProd : (((commodityFilter (stripTable t0) i).cols.filter
              (fun c => !(isYear c))) ++ ["Year", "Production"]).findIdx?
            (fun c => c == "Production") =
            some (1 + ((commodityFilter (stripTable t0) i).cols.filter
              (fun c => !(isYear c))).length) := by
          rw [List.findIdx?_append, hidvnone,
            show (["Year", "Production"] : List String).findIdx?
              (fun c => c == "Production") = some 1 from by decide]
          rfl
        have hProdIdx1 : (coerceCol (melt (commodityFilter (stripTable t0) i)
            ((commodityFilter (stripTable t0) i).cols.filter (fun c => !(isYear c)))
            ((commodityFilter (stripTable t0) i).cols.filter isYear)
            "Year" "Production") "Year").cols.findIdx?
            (fun c => c == "Production") =
            some (1 + ((commodityFilter (stripTable t0) i).cols.filter
              (fun c => !(isYear c))).length) := by
          rw [coerceCol_cols, melt_cols]
          exact hProd
        have hprodFinal : (renameCol (coerceCol (coerceCol
            (melt (commodityFilter (stripTable t0) i)
              ((commodityFilter (stripTable t0) i).cols.filter (fun c => !(isYear c)))
              ((commodityFilter (stripTable t0) i).cols.filter isYear)
              "Year" "Production") "Year") "Production")
            "Country" "CountryName").cols.findIdx?
            (fun c => c == "Production") =
            some (1 + ((commodityFilter (stripTable t0) i).cols.filter
              (fun c => !(isYear c))).length) := by
          rw [renameCol_cols, coerceCol_cols, coerceCol_cols, melt_cols,
            findIdx_rename_other (by decide) (by decide)]
          exact hProd
        have hymem : "Year" ∈ (renameCol (coerceCol (coerceCol
            (melt (commodityFilter (stripTable t0) i)
              ((commodityFilter (stripTable t0) i).cols.filter (fun c => !(isYear c)))
              ((commodityFilter (stripTable t0) i).cols.filter isYear)
              "Year" "Production") "Year") "Production")
            "Country" "CountryName").cols := by
          rw [renameCol_cols, coerceCol_cols, coerceCol_cols, melt_cols]
          exact mem_rename_of_fixed
            (List.mem_append_right _ (by decide)) (by decide)
        obtain ⟨iy, hiy⟩ := findIdx_label_of_mem hymem
        refine ⟨1 + ((commodityFilter (stripTable t0) i).cols.filter
          (fun c => !(isYear c))).length, hprodFinal, ?_⟩
        intro r hr
        rw [show (usgsWide (commodityFilter (stripTable t0) i)
            ((commodityFilter (stripTable t0) i).cols.filter isYear)).rows =
          ((renameCol (coerceCol (coerceCol
            (melt (commodityFilter (stripTable t0) i)
              ((commodityFilter (stripTable t0) i).cols.filter (fun c => !(isYear c)))
              ((commodityFilter (stripTable t0) i).cols.filter isYear)
              "Year" "Production") "Year") "Production")
            "Country" "CountryName").rows.filter
              (fun r => !(isBlank (getCell r (1 + ((commodityFilter (stripTable t0) i).cols.filter
                (fun c => !(isYear c))).length))) &&
                (!(isBlank (getCell r iy)) && true))) from
          dropnaOn_pair_rows hprodFinal hiy] at hr
        obtain ⟨hmem, hkeep⟩ := List.mem_filter.mp hr
        rw [renameCol_rows, coerceCol_rows_of_idx hProdIdx1] at hmem
        rcases mem_coerced_rows_shape hmem with hbl | hnum
        · exfalso
          rw [Bool.and_eq_true] at hkeep
          have := hkeep.1
          rw [hbl] at this
          simp [isBlank] at this
        · exact hnum

/-- Witness for C10 at the wide-layout table `tblWideProd`. -/
theorem c10_production_always_present_witness :
    ∃ ip, tblWideOut.cols.findIdx? (fun c => c == "Production") = some ip ∧
      ∀ r ∈ tblWideOut.rows, ∃ q, getCell r ip = Cell.num q :=
  c10_production_always_present tblWideProd tblWideOut (by decide)

end Phos
